import Mathlib

/-!
Verification development for the stochastic search engines of the
Stochastic-Sudoku repository: the generational genetic algorithm
(`GeneticAlgorithm.h`), the generalized hill-climbing algorithm
(`HillClimbingAlgorithm.h`), and the Sudoku uniform row crossover
(`GenSudokuBoardGAPopulator.h`).

The engines are embedded shallowly: candidates form an abstract type `C`
with a fitness function `fit : C → ℚ`; every interaction with the
pluggable collaborators (populator, selector, shared random generator) is
supplied by an explicit oracle environment, indexed by the program point
(generation/round, slot, iteration) at which the corresponding C++ call
happens.  `survive` performs an independent deep copy of a candidate, so
in a pure embedding it is the identity on the candidate's value.
The `uint64_t` loop bound `max_generations - 1` is modelled with explicit
arithmetic modulo 2^64.
-/

namespace StochasticSudoku

/-- First-index-of-maximum scan.  This is the recurrence shared by the
population-initialization loop of `GeneticAlgorithm::run` (lines 97-104:
`max_init` is replaced only when a strictly greater fitness appears) and by
`std::max_element` with the comparator `s1->fitness() < s2->fitness()`
(lines 138-139: the kept iterator is replaced only when `*largest < *it`).
Both keep the earliest index attaining the maximum fitness. -/
def maxIndexBy {C : Type} [Inhabited C] (fit : C → ℚ) (l : List C) : Nat :=
  (List.range l.length).foldl
    (fun m i => if fit (l.getD m default) < fit (l.getD i default) then i else m) 0

/-- The configuration fields of `GeneticAlgorithm::Options` that the engine
reads.  `populatorSet` models whether `options.populator` is non-null.
`max_generations` is the `uint64_t` value (a natural number below `2^64`).
Probabilities and fitness values are embedded as rationals. -/
structure GAOptions where
  populatorSet : Bool
  population_size : Nat
  max_generations : Nat
  crossover_probability : ℚ
  mutation_probability : ℚ
  fitness_success_threshold : ℚ
  fitness_death_threshold : ℚ
  fitness_death_factor : ℚ
  permissible_dead_rounds : Nat

/-- Oracle environment for one run of the genetic engine.  Each field gives
the outcome of one external call (random draw, selector choice, populator
operation), indexed by the program point where the call occurs:
`g` = generation index of the breeding loop, `i` = slot index,
`w : Bool` = which of the two children / parents of a slot. -/
structure GAEnv (C : Type) where
  /-- result of the `i`-th `populator->generate()` call of the
  population-initialization loop (lines 99-104). -/
  initGen : Nat → C
  /-- the `probabilityGenerator(gen)` draw deciding crossover for slot `i`
  of generation `g` (line 119). -/
  crossDraw : Nat → Nat → ℚ
  /-- the index returned by `selector->select(prevGeneration)` for parent
  `w` of slot `i` of generation `g` (lines 120, 122). -/
  selectIdx : Nat → Nat → Bool → Nat
  /-- the pair returned by `populator->crossover(p0, p1)` at slot `i` of
  generation `g` (line 125), as a function of the two parents. -/
  crossResult : Nat → Nat → C → C → C × C
  /-- the `probabilityGenerator(gen)` draw deciding mutation of child `w`
  of slot `i` of generation `g` (lines 126, 128). -/
  mutDraw : Nat → Nat → Bool → ℚ
  /-- the result of `populator->mutate(c)` on child `w` of slot `i` of
  generation `g` (lines 127, 129), as a function of the child. -/
  mutResult : Nat → Nat → Bool → C → C
  /-- the result of the `populator->generate()` call replacing slot `i` in
  the kill pass of generation `g` (line 163). -/
  regen : Nat → Nat → C
  /-- the reordering applied by `std::shuffle` after generation `g`
  (line 181). -/
  shuffleAt : Nat → List C → List C

section GeneticEngine

variable {C : Type} [Inhabited C]

/-- One pair-slot of the breeding loop (lines 117-134 of
`GeneticAlgorithm.h`): if the crossover draw falls below
`crossover_probability`, two parents are selected, crossed over, and each
child is independently mutated when its own draw falls below
`mutation_probability`; otherwise the two input candidates at positions
`2*i` and `2*i+1` survive (an independent copy, hence the identity on the
value) into the same output positions.  Returns the pair written to output
positions `(2*i, 2*i+1)`. -/
def breedSlot (opts : GAOptions) (env : GAEnv C) (g : Nat)
    (prev : List C) (i : Nat) : C × C :=
  if env.crossDraw g i < opts.crossover_probability then
    let p0 := prev.getD (env.selectIdx g i false) default
    let p1 := prev.getD (env.selectIdx g i true) default
    let cs := env.crossResult g i p0 p1
    let c0 := if env.mutDraw g i false < opts.mutation_probability then
        env.mutResult g i false cs.1 else cs.1
    let c1 := if env.mutDraw g i true < opts.mutation_probability then
        env.mutResult g i true cs.2 else cs.2
    (c0, c1)
  else
    (prev.getD (2 * i) default, prev.getD (2 * i + 1) default)

/-- The next generation (lines 112-134): `population_size / 2` pair-slots,
slot `i` filling output positions `2*i` and `2*i+1`. -/
def buildGeneration (opts : GAOptions) (env : GAEnv C)
    (g : Nat) (prev : List C) : List C :=
  (List.range (opts.population_size / 2)).flatMap
    (fun i => [(breedSlot opts env g prev i).1, (breedSlot opts env g prev i).2])

/-- The kill threshold of lines 155-157:
`max(fitness_death_threshold, fitness_death_factor * best->fitness())`
(the `static_cast<Fitness>` is the identity on the embedded rationals). -/
def killThreshold (opts : GAOptions) (bestFit : ℚ) : ℚ :=
  max opts.fitness_death_threshold (opts.fitness_death_factor * bestFit)

/-- The kill predicate of line 162: slot `i` is regenerated when
`deadRounds >= permissible_dead_rounds` or the candidate's fitness is at or
below the kill threshold. -/
def killCond (fit : C → ℚ) (opts : GAOptions) (deadRounds : Nat)
    (kt : ℚ) (c : C) : Bool :=
  opts.permissible_dead_rounds ≤ deadRounds || fit c ≤ kt

/-- The kill pass of lines 160-163: the loop over slots `i`, replacing
every candidate satisfying the kill predicate by a freshly generated one.
`i` is the index of the first slot of `gen`; the pass over a whole
generation starts at `i = 0`. -/
def killPass (fit : C → ℚ) (opts : GAOptions) (env : GAEnv C) (g : Nat)
    (deadRounds : Nat) (kt : ℚ) : Nat → List C → List C
  | _, [] => []
  | i, c :: cs =>
    (if killCond fit opts deadRounds kt c then env.regen g i else c) ::
      killPass fit opts env g deadRounds kt (i + 1) cs

/-- The loop-carried state of the breeding loop of `GeneticAlgorithm::run`:
the previous generation, the running best (an independent copy, held by
value), and the dead-rounds counter. -/
structure GAState (C : Type) where
  prevGen : List C
  best : C
  deadRounds : Nat

/-- Result of a run: either the success return of line 146 (with the
generation index at which it fired) or the budget-exhaustion return of
line 185. -/
inductive GAOutcome (C : Type) where
  | solved (best : C) (generation : Nat)
  | exhausted (best : C)
deriving DecidableEq

/-- One iteration of the breeding loop (lines 110-182), at generation `g`:
build the next generation, find its fittest candidate (earliest index on
ties), replace `best` on strict improvement, return successfully when
`best` reaches the success threshold, otherwise update the dead-rounds
counter, run the kill pass against the kill threshold, reset the counter
once if the forced-regeneration condition fired, and shuffle. -/
def gaStep (fit : C → ℚ) (opts : GAOptions) (env : GAEnv C) (g : Nat)
    (st : GAState C) : C ⊕ GAState C :=
  let next := buildGeneration opts env g st.prevGen
  let fittest := next.getD (maxIndexBy fit next) default
  let increased := fit st.best < fit fittest
  let best' := if increased then fittest else st.best
  if opts.fitness_success_threshold ≤ fit best' then
    Sum.inl best'
  else
    let dead' := if increased then 0 else st.deadRounds + 1
    let kt := killThreshold opts (fit best')
    let killed := killPass fit opts env g dead' kt 0 next
    let dead'' := if opts.permissible_dead_rounds ≤ dead' then 0 else dead'
    Sum.inr ⟨env.shuffleAt g killed, best', dead''⟩

/-- The number of iterations of the breeding loop
`for (generation = 0; generation < options.max_generations - 1; ++generation)`:
`max_generations - 1` in `uint64_t` arithmetic, i.e. `max_generations`
plus `2^64 - 1`, reduced modulo `2^64`. -/
def geneticLoopBound (mg : Nat) : Nat :=
  (mg + (2 ^ 64 - 1)) % 2 ^ 64

/-- The breeding loop itself, driven by the remaining iteration budget:
when the budget is exhausted the best candidate found is returned
(line 185). -/
def gaLoop (fit : C → ℚ) (opts : GAOptions) (env : GAEnv C) :
    Nat → Nat → GAState C → GAOutcome C
  | 0, _, st => .exhausted st.best
  | fuel + 1, g, st =>
    match gaStep fit opts env g st with
    | .inl b => .solved b g
    | .inr st' => gaLoop fit opts env fuel (g + 1) st'

/-- The initial population (lines 98-104): `population_size` candidates
produced by `populator->generate()`. -/
def gaInitPop (opts : GAOptions) (env : GAEnv C) : List C :=
  (List.range opts.population_size).map env.initGen

/-- `GeneticAlgorithm::run` (lines 80-186): validate the configuration
(populator set, even population size), generate the initial population,
set `best` to an independent copy of its first fittest member, and run the
breeding loop for `max_generations - 1` (in `uint64_t` arithmetic)
iterations. -/
def runGA (fit : C → ℚ) (opts : GAOptions) (env : GAEnv C) :
    Except String (GAOutcome C) :=
  if !opts.populatorSet then
    .error "must set a Populator"
  else if opts.population_size % 2 == 1 then
    .error "population_size must be even"
  else
    let pop := gaInitPop opts env
    let best := pop.getD (maxIndexBy fit pop) default
    .ok (gaLoop fit opts env (geneticLoopBound opts.max_generations) 0 ⟨pop, best, 0⟩)

end GeneticEngine

/-- The configuration fields of the hill-climbing options that
`HillClimbingAlgorithm::run` reads: populator presence, the two `uint64_t`
budgets, and the success threshold. -/
structure HCOptions where
  populatorSet : Bool
  max_rounds : Nat
  max_iterations_per_round : Nat
  fitness_success_threshold : ℚ

/-- Oracle environment for one run of the hill-climbing engine over
candidates `C` and per-round heuristic state `S`.  `accept` models the
overridable virtual `accept(next, cur, options, state)`, which may mutate
the state, hence returns the decision together with the new state;
`initState` models the overridable virtual `initState(options)` for each
round. -/
structure HCEnv (C : Type) (S : Type) where
  /-- result of `populator->generate()` starting round `r` (line 54). -/
  genAt : Nat → C
  /-- result of `populator->generateNeighbour(cur)` at round `r`,
  iteration `k` (line 58), as a function of `cur`. -/
  neighbourAt : Nat → Nat → C → C
  /-- the fresh per-round state of line 51. -/
  initState : Nat → S
  /-- the acceptance policy of line 59. -/
  accept : C → C → S → Bool × S

/-- The default acceptance policy of `HillClimbingAlgorithm::accept`
(line 95): accept exactly when the neighbour strictly improves fitness;
the state is untouched. -/
def defaultAccept {C S : Type} (fit : C → ℚ) : C → C → S → Bool × S :=
  fun next cur s => (decide (fit cur < fit next), s)

/-- The best-so-far update of lines 67-68: replace `best` when it is not
yet set or the current candidate's fitness is strictly greater (the copy
`std::make_unique<T>(*cur)` is the identity on the value). -/
def updateBest {C : Type} (fit : C → ℚ) (cur : C) : Option C → Option C
  | none => some cur
  | some b => if fit b < fit cur then some cur else some b

/-- Result of a hill-climbing run: either the success return of line 64
(with the round and iteration indices at which it fired) or the final
`return best` of line 75, whose value is still the null pointer when no
iteration ever updated it. -/
inductive HCOutcome (C : Type) where
  | solved (c : C) (round : Nat) (iteration : Nat)
  | exhausted (best : Option C)
deriving DecidableEq

section HillClimbingEngine

variable {C S : Type}

/-- The inner iteration loop of `HillClimbingAlgorithm::run` (lines
56-71), at round `r`, driven by the remaining iteration budget: generate a
neighbour, move to it when accepted, return `cur` when it reaches the
success threshold, otherwise update the best-so-far and continue.
Returns the success candidate with its iteration index, or the best-so-far
at the end of the round. -/
def hcIterLoop (fit : C → ℚ) (opts : HCOptions) (env : HCEnv C S) (r : Nat) :
    Nat → Nat → S → C → Option C → (C × Nat) ⊕ Option C
  | 0, _, _, _, best => .inr best
  | fuel + 1, k, s, cur, best =>
    let next := env.neighbourAt r k cur
    let acc := env.accept next cur s
    let cur' := if acc.1 then next else cur
    if opts.fitness_success_threshold ≤ fit cur' then
      .inl (cur', k)
    else
      hcIterLoop fit opts env r fuel (k + 1) acc.2 cur' (updateBest fit cur' best)

/-- The outer round loop of `HillClimbingAlgorithm::run` (lines 49-72),
driven by the remaining round budget: each round starts from a fresh state
and a freshly generated candidate; only the best-so-far carries over. -/
def hcRoundLoop (fit : C → ℚ) (opts : HCOptions) (env : HCEnv C S) :
    Nat → Nat → Option C → HCOutcome C
  | 0, _, best => .exhausted best
  | fuel + 1, r, best =>
    match hcIterLoop fit opts env r opts.max_iterations_per_round 0
        (env.initState r) (env.genAt r) best with
    | .inl (c, k) => .solved c r k
    | .inr best' => hcRoundLoop fit opts env fuel (r + 1) best'

/-- `HillClimbingAlgorithm::run` (lines 41-76): validate that the
populator is set, then run `max_rounds` rounds starting from `best` unset
(the null pointer, modelled as `none`). -/
def runHC (fit : C → ℚ) (opts : HCOptions) (env : HCEnv C S) :
    Except String (HCOutcome C) :=
  if !opts.populatorSet then
    .error "must set an HillClimbingPopulator"
  else
    .ok (hcRoundLoop fit opts env opts.max_rounds 0 none)

end HillClimbingEngine

/-- `GenSudokuBoardGAPopulator::crossover` (lines 94-119 of
`GenSudokuBoardGAPopulator.h`).  A board's contents are row-major:
cell `(i, j)` lives at position `i * NN + j`, so a position `pos` below
`NN * NN` belongs to row `pos / NN`.  For each row `i` the shared
generator draws `draws i ∈ {0, 1}`: on `0` child 0 takes parent 0's row
and child 1 takes parent 1's row, otherwise the rows are assigned the
other way around.  Returns the two children's contents. -/
def gsCrossover (NN : Nat) (draws : Nat → Nat) (p0 p1 : Nat → Nat) :
    (Nat → Nat) × (Nat → Nat) :=
  (fun pos => if draws (pos / NN) = 0 then p0 pos else p1 pos,
   fun pos => if draws (pos / NN) = 0 then p1 pos else p0 pos)

section Traces

variable {C S : Type} [Inhabited C]

/-- The sequence of fitness values taken by the genetic engine's running
`best`, one entry per loop state plus the final returned value: the trace
of a run of `runGA` is this trace at the initial state with the full
iteration budget. -/
def gaBestTrace (fit : C → ℚ) (opts : GAOptions) (env : GAEnv C) :
    Nat → Nat → GAState C → List ℚ
  | 0, _, st => [fit st.best]
  | fuel + 1, g, st =>
    fit st.best ::
      (match gaStep fit opts env g st with
       | .inl b => [fit b]
       | .inr st' => gaBestTrace fit opts env fuel (g + 1) st')

/-- Ordering on recorded best-fitness values: the unset best (`none`,
the null pointer) precedes everything; set values compare by `≤`. -/
def optLE : Option ℚ → Option ℚ → Prop
  | none, _ => True
  | some _, none => False
  | some a, some b => a ≤ b

instance : DecidableRel optLE := fun a b =>
  match a, b with
  | none, _ => isTrue trivial
  | some _, none => isFalse id
  | some x, some y => inferInstanceAs (Decidable (x ≤ y))

/-- The recorded best-fitness values of one round of the hill-climbing
engine: one entry per iteration that runs the best-so-far update of lines
67-68 (the success return of line 64 skips that update and ends the
trace). -/
def hcIterTrace (fit : C → ℚ) (opts : HCOptions) (env : HCEnv C S) (r : Nat) :
    Nat → Nat → S → C → Option C → List (Option ℚ)
  | 0, _, _, _, _ => []
  | fuel + 1, k, s, cur, best =>
    let next := env.neighbourAt r k cur
    let acc := env.accept next cur s
    let cur' := if acc.1 then next else cur
    if opts.fitness_success_threshold ≤ fit cur' then []
    else
      Option.map fit (updateBest fit cur' best) ::
        hcIterTrace fit opts env r fuel (k + 1) acc.2 cur' (updateBest fit cur' best)

/-- The recorded best-fitness values across the rounds of a hill-climbing
run: the concatenation of the per-round traces, stopping at a success
return.  The trace of a run of `runHC` is this trace at round `0` with
`best` unset and the full round budget. -/
def hcRoundTrace (fit : C → ℚ) (opts : HCOptions) (env : HCEnv C S) :
    Nat → Nat → Option C → List (Option ℚ)
  | 0, _, _ => []
  | fuel + 1, r, best =>
    hcIterTrace fit opts env r opts.max_iterations_per_round 0
        (env.initState r) (env.genAt r) best ++
      (match hcIterLoop fit opts env r opts.max_iterations_per_round 0
          (env.initState r) (env.genAt r) best with
       | .inl _ => []
       | .inr best' => hcRoundTrace fit opts env fuel (r + 1) best')

end Traces

/-- The prefix scan underlying `maxIndexBy`: the first-index-of-maximum
recurrence run over the first `n` indices of `l`. -/
def scanIdx {C : Type} [Inhabited C] (fit : C → ℚ) (l : List C) (n : Nat) : Nat :=
  (List.range n).foldl
    (fun m i => if fit (l.getD m default) < fit (l.getD i default) then i else m) 0

/-! ### Concrete instantiations

Small executable instantiations over `C := ℚ` (a candidate is identified
with its fitness value) and `S := Unit`, used to evaluate the embedding at
concrete inputs. -/

/-- Fitness of a rational-valued candidate: the value itself. -/
def qfit : ℚ → ℚ := fun c => c

/-- A concrete genetic oracle: the `i`-th initial candidate has fitness
`i`, crossover draws always fail (`1`), and regenerated candidates have
fitness `99`. -/
def qGAEnv : GAEnv ℚ where
  initGen := fun i => (i : ℚ)
  crossDraw := fun _ _ => 1
  selectIdx := fun _ _ _ => 0
  crossResult := fun _ _ a b => (a, b)
  mutDraw := fun _ _ _ => 1
  mutResult := fun _ _ _ c => c
  regen := fun _ _ => 99
  shuffleAt := fun _ l => l

/-- A concrete genetic oracle whose `generate()` always produces fitness
`7`, whether in the initial population or in the kill pass. -/
def qGAEnv7 : GAEnv ℚ where
  initGen := fun _ => 7
  crossDraw := fun _ _ => 1
  selectIdx := fun _ _ _ => 0
  crossResult := fun _ _ a b => (a, b)
  mutDraw := fun _ _ _ => 1
  mutResult := fun _ _ _ c => c
  regen := fun _ _ => 7
  shuffleAt := fun _ l => l

/-- A concrete genetic oracle exercising the crossover branch of slot 0:
its crossover draw is `0`, the selector picks parents `0` and `1`, the
crossover children have fitness `8` and `-2`, the first child's mutation
draw succeeds (draw `0`) and the second does not (draw `1/2`, not below
the probability), and mutation produces fitness `80`. -/
def qGAEnvX : GAEnv ℚ where
  initGen := fun i => (i : ℚ)
  crossDraw := fun _ i => if i = 0 then 0 else 1
  selectIdx := fun _ _ w => if w then 1 else 0
  crossResult := fun _ _ _ _ => (8, -2)
  mutDraw := fun _ _ w => if w then 1 / 2 else 0
  mutResult := fun _ _ _ _ => 80
  regen := fun _ _ => 99
  shuffleAt := fun _ l => l

/-- Genetic options with the source defaults for the death parameters
(`fitness_death_threshold = 0`, `fitness_death_factor = 0`), no crossover
and no forced regeneration within reach. -/
def qOptsBase : GAOptions where
  populatorSet := true
  population_size := 4
  max_generations := 3
  crossover_probability := 0
  mutation_probability := 0
  fitness_success_threshold := 100
  fitness_death_threshold := 0
  fitness_death_factor := 0
  permissible_dead_rounds := 1000

/-- Genetic options with the populator missing. -/
def qOptsNoPop : GAOptions :=
  { qOptsBase with populatorSet := false }

/-- Genetic options with an odd population size. -/
def qOptsOdd : GAOptions :=
  { qOptsBase with population_size := 3 }

/-- Genetic options whose success threshold `5` is met by every candidate
of `qGAEnv7`. -/
def qOpts7 : GAOptions :=
  { qOptsBase with population_size := 2, max_generations := 5,
                   fitness_success_threshold := 5 }

/-- Genetic options with `max_generations = 0`, the underflowing case. -/
def qOpts9 : GAOptions :=
  { qOptsBase with max_generations := 0 }

/-- Genetic options with `permissible_dead_rounds = 1`, population 2, and
crossover slot 0 exercising the crossover branch under `qGAEnvX`. -/
def qOpts2 : GAOptions :=
  { qOptsBase with population_size := 2, permissible_dead_rounds := 1,
                   mutation_probability := 1 / 2 }

/-- Genetic options with crossover and mutation probabilities `1/2`,
population 2. -/
def qOpts5 : GAOptions :=
  { qOptsBase with population_size := 2, crossover_probability := 1 / 2,
                   mutation_probability := 1 / 2 }

/-- A concrete hill-climbing oracle: every round starts at fitness `7`,
a neighbour adds `1`, and acceptance is the default policy. -/
def qHCEnv7 : HCEnv ℚ Unit where
  genAt := fun _ => 7
  neighbourAt := fun _ _ c => c + 1
  initState := fun _ => ()
  accept := defaultAccept qfit

/-- A concrete population with an interior tie for the maximum fitness. -/
def qlist : List ℚ := [3, 7, 7, 2]

/-!  ## Theorems  -/

theorem maxIndexBy_eq_scanIdx {C : Type} [Inhabited C] (fit : C → ℚ) (l : List C) :
    maxIndexBy fit l = scanIdx fit l l.length := rfl

theorem scanIdx_succ {C : Type} [Inhabited C] (fit : C → ℚ) (l : List C) (n : Nat) :
    scanIdx fit l (n + 1) =
      if fit (l.getD (scanIdx fit l n) default) < fit (l.getD n default) then n
      else scanIdx fit l n := by
  unfold scanIdx
  rw [List.range_succ, List.foldl_append]
  rfl

theorem scanIdx_invariant {C : Type} [Inhabited C] (fit : C → ℚ) (l : List C)
    (n : Nat) (hn : 0 < n) :
    scanIdx fit l n < n ∧
    (∀ j, j < n → fit (l.getD j default) ≤ fit (l.getD (scanIdx fit l n) default)) ∧
    (∀ j, j < scanIdx fit l n →
      fit (l.getD j default) < fit (l.getD (scanIdx fit l n) default)) := by
  induction n with
  | zero => exact absurd hn (lt_irrefl 0)
  | succ n ih =>
    rcases Nat.eq_zero_or_pos n with h0 | hp
    · subst h0
      rw [scanIdx_succ]
      have : scanIdx fit l 0 = 0 := rfl
      rw [this, if_neg (lt_irrefl _)]
      refine ⟨Nat.zero_lt_one, ?_, ?_⟩
      · intro j hj
        interval_cases j
        exact le_refl _
      · intro j hj
        exact absurd hj (Nat.not_lt_zero j)
    · obtain ⟨hlt, hmax, hstrict⟩ := ih hp
      rw [scanIdx_succ]
      by_cases hc : fit (l.getD (scanIdx fit l n) default) < fit (l.getD n default)
      · rw [if_pos hc]
        refine ⟨Nat.lt_succ_self n, ?_, ?_⟩
        · intro j hj
          rcases Nat.lt_succ_iff_lt_or_eq.mp hj with hj' | hj'
          · exact le_of_lt (lt_of_le_of_lt (hmax j hj') hc)
          · subst hj'; exact le_refl _
        · intro j hj
          exact lt_of_le_of_lt (hmax j hj) hc
      · rw [if_neg hc]
        refine ⟨Nat.lt_succ_of_lt hlt, ?_, hstrict⟩
        intro j hj
        rcases Nat.lt_succ_iff_lt_or_eq.mp hj with hj' | hj'
        · exact hmax j hj'
        · subst hj'; exact not_lt.mp hc

/-- Claim C6: the candidate chosen as the fittest of a generation by
`std::max_element` with the fitness comparator — and likewise the index of
the fittest member of the initial population recorded by the
initialization loop — has maximal fitness, and among candidates sharing
the maximal fitness the one at the lowest index is chosen.  Both program
points compute `maxIndexBy`, whose result is in range, fitness-maximal,
and minimal among indices attaining the maximal fitness. -/
theorem fittest_selection_lowest_index_tie_break :
    ∀ (C : Type) [Inhabited C] (fit : C → ℚ) (l : List C), l ≠ [] →
      maxIndexBy fit l < l.length ∧
      (∀ j, j < l.length →
        fit (l.getD j default) ≤ fit (l.getD (maxIndexBy fit l) default)) ∧
      (∀ j, j < l.length →
        fit (l.getD j default) = fit (l.getD (maxIndexBy fit l) default) →
        maxIndexBy fit l ≤ j) := by
  intro C instC fit l hl
  have hn : 0 < l.length := List.length_pos.mpr hl
  obtain ⟨hlt, hmax, hstrict⟩ := scanIdx_invariant fit l l.length hn
  rw [maxIndexBy_eq_scanIdx]
  refine ⟨hlt, hmax, ?_⟩
  intro j hj heq
  by_contra hcon
  push_neg at hcon
  have := hstrict j hcon
  rw [heq] at this
  exact lt_irrefl _ this

/-- Witness for C6 on the concrete population `[3, 7, 7, 2]` (the fittest
index is `1`, the earlier of the two candidates of fitness `7`). -/
theorem fittest_selection_lowest_index_tie_break_witness :
    qlist ≠ [] ∧
    (maxIndexBy qfit qlist < qlist.length ∧
     (∀ j, j < qlist.length →
       qfit (qlist.getD j default) ≤ qfit (qlist.getD (maxIndexBy qfit qlist) default)) ∧
     (∀ j, j < qlist.length →
       qfit (qlist.getD j default) = qfit (qlist.getD (maxIndexBy qfit qlist) default) →
       maxIndexBy qfit qlist ≤ j)) :=
  ⟨by decide,
   fittest_selection_lowest_index_tie_break ℚ qfit qlist (by decide)⟩

theorem optLE_none_left (b : Option ℚ) : optLE none b := trivial

theorem optLE_some_some {a b : ℚ} : optLE (some a) (some b) ↔ a ≤ b := Iff.rfl

theorem gaStep_eq {C : Type} [Inhabited C] (fit : C → ℚ) (opts : GAOptions)
    (env : GAEnv C) (g : Nat) (st : GAState C) :
    gaStep fit opts env g st =
      (let N := buildGeneration opts env g st.prevGen
       let F := N.getD (maxIndexBy fit N) default
       let B := if fit st.best < fit F then F else st.best
       let D := if fit st.best < fit F then 0 else st.deadRounds + 1
       if opts.fitness_success_threshold ≤ fit B then Sum.inl B
       else
         Sum.inr ⟨env.shuffleAt g (killPass fit opts env g D (killThreshold opts (fit B)) 0 N),
           B, if opts.permissible_dead_rounds ≤ D then 0 else D⟩) := rfl

theorem gaStep_best_mono {C : Type} [Inhabited C] (fit : C → ℚ) (opts : GAOptions)
    (env : GAEnv C) (g : Nat) (st : GAState C) :
    (∀ b, gaStep fit opts env g st = Sum.inl b → fit st.best ≤ fit b) ∧
    (∀ st', gaStep fit opts env g st = Sum.inr st' → fit st.best ≤ fit st'.best) := by
  set N := buildGeneration opts env g st.prevGen with hN
  set F := N.getD (maxIndexBy fit N) default with hF
  set B := if fit st.best < fit F then F else st.best with hB
  set D := if fit st.best < fit F then 0 else st.deadRounds + 1 with hD
  have hga : gaStep fit opts env g st =
      if opts.fitness_success_threshold ≤ fit B then Sum.inl B
      else
        Sum.inr ⟨env.shuffleAt g (killPass fit opts env g D (killThreshold opts (fit B)) 0 N),
          B, if opts.permissible_dead_rounds ≤ D then 0 else D⟩ := rfl
  have hmB : fit st.best ≤ fit B := by
    rw [hB]
    split_ifs with h
    · exact le_of_lt h
    · exact le_refl _
  rw [hga]
  by_cases hth : opts.fitness_success_threshold ≤ fit B
  · rw [if_pos hth]
    refine ⟨fun b hb => ?_, fun st' h => by cases h⟩
    injection hb with h
    subst h
    exact hmB
  · rw [if_neg hth]
    constructor
    · intro b hb
      cases hb
    · intro st' h
      injection h with h2
      subst h2
      exact hmB

theorem gaBestTrace_head {C : Type} [Inhabited C] (fit : C → ℚ) (opts : GAOptions)
    (env : GAEnv C) (fuel g : Nat) (st : GAState C) :
    (gaBestTrace fit opts env fuel g st).head? = some (fit st.best) := by
  cases fuel <;> rfl

theorem gaBestTrace_chain {C : Type} [Inhabited C] (fit : C → ℚ) (opts : GAOptions)
    (env : GAEnv C) :
    ∀ (fuel g : Nat) (st : GAState C),
      List.Chain' (fun a b => a ≤ b) (gaBestTrace fit opts env fuel g st) := by
  intro fuel
  induction fuel with
  | zero => intro g st; exact List.chain'_singleton _
  | succ n ih =>
    intro g st
    rcases hstep : gaStep fit opts env g st with b | st'
    · have : gaBestTrace fit opts env (n + 1) g st = [fit st.best, fit b] := by
        simp only [gaBestTrace, hstep]
      rw [this]
      exact List.chain'_cons.mpr
        ⟨(gaStep_best_mono fit opts env g st).1 b hstep, List.chain'_singleton _⟩
    · have : gaBestTrace fit opts env (n + 1) g st =
          fit st.best :: gaBestTrace fit opts env n (g + 1) st' := by
        simp only [gaBestTrace, hstep]
      rw [this]
      refine List.chain'_cons'.mpr ⟨?_, ih (g + 1) st'⟩
      intro y hy
      rw [gaBestTrace_head] at hy
      simp only [Option.mem_def, Option.some.injEq] at hy
      subst hy
      exact (gaStep_best_mono fit opts env g st).2 st' hstep

theorem optLE_updateBest {C : Type} (fit : C → ℚ) (cur : C) (best : Option C) :
    optLE (Option.map fit best) (Option.map fit (updateBest fit cur best)) := by
  cases best with
  | none => exact trivial
  | some b =>
    simp only [updateBest, Option.map_some]
    split_ifs with h
    · exact optLE_some_some.mpr (le_of_lt h)
    · exact optLE_some_some.mpr (le_refl _)

theorem hcIter_chain_last {C S : Type} (fit : C → ℚ) (opts : HCOptions)
    (env : HCEnv C S) (r : Nat) :
    ∀ (fuel k : Nat) (s : S) (cur : C) (best : Option C),
      List.Chain' optLE
        (Option.map fit best :: hcIterTrace fit opts env r fuel k s cur best) ∧
      (∀ b', hcIterLoop fit opts env r fuel k s cur best = Sum.inr b' →
        (Option.map fit best ::
          hcIterTrace fit opts env r fuel k s cur best).getLast? =
          some (Option.map fit b')) := by
  intro fuel
  induction fuel with
  | zero =>
    intro k s cur best
    refine ⟨List.chain'_singleton _, ?_⟩
    intro b' h
    simp only [hcIterLoop, Sum.inr.injEq] at h
    subst h
    rfl
  | succ n ih =>
    intro k s cur best
    by_cases hth : opts.fitness_success_threshold ≤
        fit (if (env.accept (env.neighbourAt r k cur) cur s).1 then
          env.neighbourAt r k cur else cur)
    · have ht : hcIterTrace fit opts env r (n + 1) k s cur best = [] := by
        simp only [hcIterTrace, if_pos hth]
      have hl : hcIterLoop fit opts env r (n + 1) k s cur best =
          Sum.inl (if (env.accept (env.neighbourAt r k cur) cur s).1 then
            env.neighbourAt r k cur else cur, k) := by
        simp only [hcIterLoop, if_pos hth]
      rw [ht, hl]
      refine ⟨List.chain'_singleton _, ?_⟩
      intro b' h
      cases h
    · have hcur : ∀ x : C × Nat, x = x := fun x => rfl
      obtain ⟨ihc, ihl⟩ := ih (k + 1) (env.accept (env.neighbourAt r k cur) cur s).2
        (if (env.accept (env.neighbourAt r k cur) cur s).1 then
          env.neighbourAt r k cur else cur)
        (updateBest fit
          (if (env.accept (env.neighbourAt r k cur) cur s).1 then
            env.neighbourAt r k cur else cur) best)
      have ht : hcIterTrace fit opts env r (n + 1) k s cur best =
          Option.map fit (updateBest fit
            (if (env.accept (env.neighbourAt r k cur) cur s).1 then
              env.neighbourAt r k cur else cur) best) ::
            hcIterTrace fit opts env r n (k + 1)
              (env.accept (env.neighbourAt r k cur) cur s).2
              (if (env.accept (env.neighbourAt r k cur) cur s).1 then
                env.neighbourAt r k cur else cur)
              (updateBest fit
                (if (env.accept (env.neighbourAt r k cur) cur s).1 then
                  env.neighbourAt r k cur else cur) best) := by
        simp only [hcIterTrace, if_neg hth]
      have hl : hcIterLoop fit opts env r (n + 1) k s cur best =
          hcIterLoop fit opts env r n (k + 1)
            (env.accept (env.neighbourAt r k cur) cur s).2
            (if (env.accept (env.neighbourAt r k cur) cur s).1 then
              env.neighbourAt r k cur else cur)
            (updateBest fit
              (if (env.accept (env.neighbourAt r k cur) cur s).1 then
                env.neighbourAt r k cur else cur) best) := by
        simp only [hcIterLoop, if_neg hth]
      rw [ht]
      constructor
      · exact List.chain'_cons.mpr ⟨optLE_updateBest fit _ best, ihc⟩
      · intro b' h
        rw [hl] at h
        rw [List.getLast?_cons_cons]
        exact ihl b' h

theorem hcRound_chain {C S : Type} (fit : C → ℚ) (opts : HCOptions) (env : HCEnv C S) :
    ∀ (fuel r : Nat) (best : Option C),
      List.Chain' optLE
        (Option.map fit best :: hcRoundTrace fit opts env fuel r best) := by
  intro fuel
  induction fuel with
  | zero => intro r best; exact List.chain'_singleton _
  | succ n ih =>
    intro r best
    rcases hloop : hcIterLoop fit opts env r opts.max_iterations_per_round 0
        (env.initState r) (env.genAt r) best with p | best'
    · have : hcRoundTrace fit opts env (n + 1) r best =
          hcIterTrace fit opts env r opts.max_iterations_per_round 0
            (env.initState r) (env.genAt r) best := by
        simp only [hcRoundTrace, hloop, List.append_nil]
      rw [this]
      exact (hcIter_chain_last fit opts env r opts.max_iterations_per_round 0
        (env.initState r) (env.genAt r) best).1
    · have : hcRoundTrace fit opts env (n + 1) r best =
          hcIterTrace fit opts env r opts.max_iterations_per_round 0
            (env.initState r) (env.genAt r) best ++
            hcRoundTrace fit opts env n (r + 1) best' := by
        simp only [hcRoundTrace, hloop]
      rw [this, ← List.cons_append]
      apply List.chain'_append.mpr
      obtain ⟨hc, hlast⟩ := hcIter_chain_last fit opts env r
        opts.max_iterations_per_round 0 (env.initState r) (env.genAt r) best
      refine ⟨hc, (List.chain'_cons'.mp (ih (r + 1) best')).2, ?_⟩
      intro x hx y hy
      rw [hlast best' hloop] at hx
      simp only [Option.mem_def, Option.some.injEq] at hx
      subst hx
      exact (List.chain'_cons'.mp (ih (r + 1) best')).1 y hy

/-- Claim C1: across every run of either engine, the sequence of fitness
values of the running best candidate is non-decreasing.  The genetic
engine's `best` is replaced only by a strictly fitter candidate
(lines 140-143 of `GeneticAlgorithm.h`), and the hill-climbing engine's
`best` is replaced only when unset or strictly beaten (lines 67-68 of
`HillClimbingAlgorithm.h`), so the trace of recorded best fitness values
is a `≤`-chain — for every environment, every budget, and every starting
state (in particular for the full runs of `runGA` and `runHC`, whose
traces are `gaBestTrace` at the initial state and `hcRoundTrace` from an
unset best). -/
theorem best_fitness_non_decreasing :
    (∀ (C : Type) [Inhabited C] (fit : C → ℚ) (opts : GAOptions) (env : GAEnv C)
       (fuel g : Nat) (st : GAState C),
       List.Chain' (fun a b => a ≤ b) (gaBestTrace fit opts env fuel g st)) ∧
    (∀ (C S : Type) (fit : C → ℚ) (opts : HCOptions) (env : HCEnv C S)
       (fuel r : Nat) (best : Option C),
       List.Chain' optLE (Option.map fit best :: hcRoundTrace fit opts env fuel r best)) :=
  ⟨fun _ _ fit opts env fuel g st => gaBestTrace_chain fit opts env fuel g st,
   fun _ _ fit opts env fuel r best => hcRound_chain fit opts env fuel r best⟩

theorem flatMap_pairs_getD {α β : Type} [Inhabited β] (F : α → β × β) :
    ∀ (l : List α) (i : Nat) (h : i < l.length),
      ((l.flatMap fun a => [(F a).1, (F a).2]).getD (2 * i) default =
        (F (l.get ⟨i, h⟩)).1) ∧
      ((l.flatMap fun a => [(F a).1, (F a).2]).getD (2 * i + 1) default =
        (F (l.get ⟨i, h⟩)).2) := by
  intro l
  induction l with
  | nil => intro i h; exact absurd h (Nat.not_lt_zero i)
  | cons a t ih =>
    intro i h
    cases i with
    | zero => exact ⟨rfl, rfl⟩
    | succ i =>
      have hi : i < t.length := Nat.lt_of_succ_lt_succ h
      have h2 : 2 * (i + 1) = 2 * i + 1 + 1 := by ring
      have h3 : 2 * (i + 1) + 1 = 2 * i + 1 + 1 + 1 := by ring
      simp only [List.flatMap_cons, List.cons_append, List.nil_append, h2, h3,
        List.getD_cons_succ, List.get_cons_succ]
      exact ih i hi

/-- Claim C5: for pair-slot `i` of a genetic generation (output positions
`2*i` and `2*i+1`): if the crossover draw falls below
`crossover_probability`, two parent indices are chosen by the selector,
crossover produces two children, and each child is independently mutated
exactly when its own draw falls below `mutation_probability`, the results
landing in the two output positions; otherwise the two input candidates at
positions `2*i` and `2*i+1` are copied unchanged (`survive` is an
independent copy) into the same two output positions. -/
theorem pair_slot_breeding :
    ∀ (C : Type) [Inhabited C] (opts : GAOptions) (env : GAEnv C) (g : Nat)
      (prev : List C) (i : Nat), i < opts.population_size / 2 →
      (env.crossDraw g i < opts.crossover_probability →
        (buildGeneration opts env g prev).getD (2 * i) default =
          (if env.mutDraw g i false < opts.mutation_probability then
            env.mutResult g i false
              (env.crossResult g i (prev.getD (env.selectIdx g i false) default)
                (prev.getD (env.selectIdx g i true) default)).1
          else
            (env.crossResult g i (prev.getD (env.selectIdx g i false) default)
              (prev.getD (env.selectIdx g i true) default)).1) ∧
        (buildGeneration opts env g prev).getD (2 * i + 1) default =
          (if env.mutDraw g i true < opts.mutation_probability then
            env.mutResult g i true
              (env.crossResult g i (prev.getD (env.selectIdx g i false) default)
                (prev.getD (env.selectIdx g i true) default)).2
          else
            (env.crossResult g i (prev.getD (env.selectIdx g i false) default)
              (prev.getD (env.selectIdx g i true) default)).2)) ∧
      (¬ env.crossDraw g i < opts.crossover_probability →
        (buildGeneration opts env g prev).getD (2 * i) default =
          prev.getD (2 * i) default ∧
        (buildGeneration opts env g prev).getD (2 * i + 1) default =
          prev.getD (2 * i + 1) default) := by
  intro C instC opts env g prev i hi
  have hlen : i < (List.range (opts.population_size / 2)).length := by
    rw [List.length_range]; exact hi
  have haux := flatMap_pairs_getD (fun j => breedSlot opts env g prev j)
    (List.range (opts.population_size / 2)) i hlen
  have hget : (List.range (opts.population_size / 2)).get ⟨i, hlen⟩ = i :=
    List.get_range i hlen
  rw [hget] at haux
  have hb : (buildGeneration opts env g prev).getD (2 * i) default =
        (breedSlot opts env g prev i).1 ∧
      (buildGeneration opts env g prev).getD (2 * i + 1) default =
        (breedSlot opts env g prev i).2 := haux
  constructor
  · intro hcross
    rw [hb.1, hb.2]
    simp only [breedSlot, if_pos hcross]
    refine ⟨?_, ?_⟩ <;> trivial
  · intro hcross
    rw [hb.1, hb.2]
    simp only [breedSlot, if_neg hcross]
    refine ⟨?_, ?_⟩ <;> trivial

/-- Witness for C5: under `qOpts5` and `qGAEnvX`, slot `0` of the
generation built from `[3, 5]` exercises the crossover branch: parents
`3` and `5` are selected, crossed into `(8, -2)`, the first child is
mutated to `80`, the second is left unmutated. -/
theorem pair_slot_breeding_witness :
    (0 : Nat) < qOpts5.population_size / 2 ∧
    qGAEnvX.crossDraw 0 0 < qOpts5.crossover_probability ∧
    (buildGeneration qOpts5 qGAEnvX 0 [3, 5]).getD (2 * 0) default = (80 : ℚ) ∧
    (buildGeneration qOpts5 qGAEnvX 0 [3, 5]).getD (2 * 0 + 1) default = (-2 : ℚ) := by
  have h := (pair_slot_breeding ℚ qOpts5 qGAEnvX 0 [3, 5] 0 (by decide)).1
    (by show (0 : ℚ) < 1 / 2; simp)
  refine ⟨by decide, by show (0 : ℚ) < 1 / 2; simp, ?_, ?_⟩
  · rw [h.1, if_pos (show qGAEnvX.mutDraw 0 0 false < qOpts5.mutation_probability by
      show (0 : ℚ) < 1 / 2; simp)]
    rfl
  · rw [h.2, if_neg (show ¬ qGAEnvX.mutDraw 0 0 true < qOpts5.mutation_probability by
      show ¬ (1 / 2 : ℚ) < 1 / 2; simp)]
    rfl

theorem killPass_all_regen {C : Type} [Inhabited C] (fit : C → ℚ) (opts : GAOptions)
    (env : GAEnv C) (g : Nat) (dead : Nat) (kt : ℚ)
    (h : opts.permissible_dead_rounds ≤ dead) :
    ∀ (gen : List C) (i j : Nat), j < gen.length →
      (killPass fit opts env g dead kt i gen).getD j default = env.regen g (i + j) := by
  intro gen
  induction gen with
  | nil => intro i j hj; exact absurd hj (Nat.not_lt_zero j)
  | cons c cs ih =>
    intro i j hj
    have hkc : killCond fit opts dead kt c = true := by
      simp [killCond, h]
    cases j with
    | zero =>
      simp only [killPass, hkc, if_true, List.getD_cons_zero, Nat.add_zero]
    | succ j =>
      simp only [killPass, List.getD_cons_succ]
      rw [ih (i + 1) j (Nat.lt_of_succ_lt_succ hj)]
      congr 1
      omega

/-- Claim C2: in every generation of the genetic engine whose success
check does not fire (`gaStep` continues with a new state `st'`), with
`nxt` the freshly built generation, `B` the updated best and `D` the
updated dead-rounds counter: the counter is set to `0` when the best
fitness strictly improved and otherwise incremented by exactly `1`
(observable whenever the forced-regeneration condition does not
immediately reset it); and whenever the counter has reached
`permissible_dead_rounds`, every candidate of the new generation is
replaced by a freshly generated one in the kill pass and the counter is
reset to `0` once, after that pass; the next loop state carries the
shuffled killed generation. -/
theorem dead_rounds_dynamics :
    ∀ (C : Type) [Inhabited C] (fit : C → ℚ) (opts : GAOptions) (env : GAEnv C)
      (g : Nat) (st st' : GAState C) (nxt : List C) (B : C) (D : Nat),
      nxt = buildGeneration opts env g st.prevGen →
      B = (if fit st.best < fit (nxt.getD (maxIndexBy fit nxt) default) then
            nxt.getD (maxIndexBy fit nxt) default
          else st.best) →
      D = (if fit st.best < fit (nxt.getD (maxIndexBy fit nxt) default) then 0
          else st.deadRounds + 1) →
      gaStep fit opts env g st = Sum.inr st' →
      (fit st.best < fit (nxt.getD (maxIndexBy fit nxt) default) →
        st'.deadRounds = 0) ∧
      (¬ fit st.best < fit (nxt.getD (maxIndexBy fit nxt) default) →
        st.deadRounds + 1 < opts.permissible_dead_rounds →
        st'.deadRounds = st.deadRounds + 1) ∧
      (opts.permissible_dead_rounds ≤ D →
        st'.deadRounds = 0 ∧
        ∀ j, j < nxt.length →
          (killPass fit opts env g D (killThreshold opts (fit B)) 0 nxt).getD j default =
            env.regen g j) ∧
      st'.prevGen =
        env.shuffleAt g (killPass fit opts env g D (killThreshold opts (fit B)) 0 nxt) := by
  intro C instC fit opts env g st st' nxt B D hnxt hB hD hstep
  subst hnxt
  subst hB
  subst hD
  set N := buildGeneration opts env g st.prevGen with hN
  set F := N.getD (maxIndexBy fit N) default with hF
  set B := if fit st.best < fit F then F else st.best with hB2
  set D := if fit st.best < fit F then 0 else st.deadRounds + 1 with hD2
  have hga : gaStep fit opts env g st =
      if opts.fitness_success_threshold ≤ fit B then Sum.inl B
      else
        Sum.inr ⟨env.shuffleAt g (killPass fit opts env g D (killThreshold opts (fit B)) 0 N),
          B, if opts.permissible_dead_rounds ≤ D then 0 else D⟩ := rfl
  rw [hga] at hstep
  by_cases hth : opts.fitness_success_threshold ≤ fit B
  · rw [if_pos hth] at hstep
    cases hstep
  · rw [if_neg hth] at hstep
    injection hstep with h2
    subst h2
    refine ⟨?_, ?_, ?_, rfl⟩
    · intro himp
      show (if opts.permissible_dead_rounds ≤ D then 0 else D) = 0
      rw [hD2, if_pos himp]
      split_ifs <;> rfl
    · intro himp hlt
      show (if opts.permissible_dead_rounds ≤ D then 0 else D) = st.deadRounds + 1
      rw [hD2, if_neg himp]
      rw [if_neg (not_le.mpr hlt)]
    · intro hreach
      constructor
      · show (if opts.permissible_dead_rounds ≤ D then 0 else D) = 0
        rw [if_pos hreach]
      · intro j hj
        have hk := killPass_all_regen fit opts env g D (killThreshold opts (fit B))
          hreach N 0 j hj
        rwa [Nat.zero_add] at hk

/-- Witness for C2: under `qOpts2` (`permissible_dead_rounds = 1`) and
`qGAEnv`, a generation `[5, 5]` of unchanged fitness does not improve the
best `5`, so the counter reaches `1`, the whole generation is regenerated
(`99` in every slot) and the counter is reset to `0`. -/
theorem dead_rounds_dynamics_witness :
    gaStep qfit qOpts2 qGAEnv 0 ⟨[5, 5], 5, 0⟩ = Sum.inr ⟨[99, 99], 5, 0⟩ ∧
    (⟨[99, 99], 5, 0⟩ : GAState ℚ).deadRounds = 0 ∧
    ∀ j, j < ([5, 5] : List ℚ).length →
      (killPass qfit qOpts2 qGAEnv 0 1 (killThreshold qOpts2 (qfit 5)) 0 [5, 5]).getD
          j default =
        qGAEnv.regen 0 j := by
  have h := dead_rounds_dynamics ℚ qfit qOpts2 qGAEnv 0 ⟨[5, 5], 5, 0⟩
    ⟨[99, 99], 5, 0⟩ [5, 5] 5 1 rfl rfl rfl rfl
  exact ⟨rfl, (h.2.2.1 (by decide)).1, (h.2.2.1 (by decide)).2⟩

/-- Claim C4: a missing populator (either engine) or an odd population
size (genetic engine) makes `run` raise the configuration error before
any candidate is generated: the error is returned unconditionally, and
the outcome does not depend on the oracle environment in any way — no
populator operation (in particular no `generate` call) can influence or
precede it. -/
theorem config_error_before_any_work :
    ∀ (C S : Type) [Inhabited C] (fit : C → ℚ) (opts : GAOptions) (optsH : HCOptions),
      (opts.populatorSet = false →
        ∀ env env' : GAEnv C,
          runGA fit opts env = Except.error "must set a Populator" ∧
          runGA fit opts env = runGA fit opts env') ∧
      (opts.population_size % 2 = 1 →
        ∀ env env' : GAEnv C,
          opts.populatorSet = true →
          runGA fit opts env = Except.error "population_size must be even" ∧
          runGA fit opts env = runGA fit opts env') ∧
      (optsH.populatorSet = false →
        ∀ env env' : HCEnv C S,
          runHC fit optsH env = Except.error "must set an HillClimbingPopulator" ∧
          runHC fit optsH env = runHC fit optsH env') := by
  intro C S instC fit opts optsH
  refine ⟨?_, ?_, ?_⟩
  · intro h env env'
    constructor <;> simp [runGA, h]
  · intro h env env' hset
    constructor <;> simp [runGA, h, hset]
  · intro h env env'
    constructor <;> simp [runHC, h]

/-- Witness for C4: the three configuration errors at concrete options. -/
theorem config_error_before_any_work_witness :
    runGA qfit qOptsNoPop qGAEnv = Except.error "must set a Populator" ∧
    runGA qfit qOptsOdd qGAEnv = Except.error "population_size must be even" ∧
    runHC qfit ⟨false, 1, 1, 100⟩ qHCEnv7 =
      Except.error "must set an HillClimbingPopulator" :=
  ⟨((config_error_before_any_work ℚ Unit qfit qOptsNoPop
      ⟨false, 1, 1, 100⟩).1 rfl qGAEnv qGAEnv).1,
   ((config_error_before_any_work ℚ Unit qfit qOptsOdd
      ⟨false, 1, 1, 100⟩).2.1 rfl qGAEnv qGAEnv rfl).1,
   ((config_error_before_any_work ℚ Unit qfit qOptsOdd
      ⟨false, 1, 1, 100⟩).2.2 rfl qHCEnv7 qHCEnv7).1⟩

/-- Claim C3 (code bug): the kill threshold is
`max(fitness_death_threshold, fitness_death_factor * best.fitness)` and
every candidate at or below it is replaced — both as the claim states —
but with the source-default values `fitness_death_threshold = 0` and
`fitness_death_factor = 0` (whose own comments say "Default: never
kill"), a candidate of fitness `0` is at the threshold `max(0, 0) = 0`
and IS killed, because line 162 compares with `<=`: under `qOptsBase`
(the default death parameters, dead-rounds condition out of reach) the
kill pass replaces the fitness-`0` candidate by the freshly generated
`99` and keeps the fitness-`3` one. -/
theorem default_death_options_kill_fitness_zero :
    killThreshold qOptsBase 5 = 0 ∧
    killCond qfit qOptsBase 0 (killThreshold qOptsBase 5) 0 = true ∧
    killCond qfit qOptsBase 0 (killThreshold qOptsBase 5) 3 = false ∧
    killPass qfit qOptsBase qGAEnv 7 0 (killThreshold qOptsBase 5) 0 [0, 3] = [99, 3] := by
  have ht : killThreshold qOptsBase 5 = 0 := by
    simp [killThreshold, qOptsBase]
  have h0 : killCond qfit qOptsBase 0 (killThreshold qOptsBase 5) 0 = true := by
    rw [killCond, ht]
    simp [qfit, qOptsBase]
  have h3 : killCond qfit qOptsBase 0 (killThreshold qOptsBase 5) 3 = false := by
    rw [killCond, ht]
    simp [qfit, qOptsBase]
  refine ⟨ht, h0, h3, ?_⟩
  simp [killPass, h0, h3, qGAEnv]

/-- Claim C9: the breeding-loop bound `options.max_generations - 1` is
computed in `uint64_t` arithmetic, i.e. modulo `2^64`; for
`max_generations = 0` it underflows to `2^64 - 1`, so a validated run
with `max_generations = 0` executes the breeding loop with an iteration
budget of `2^64 - 1` generations after the initial population instead of
stopping immediately. -/
theorem max_generations_zero_underflow :
    geneticLoopBound 0 = 2 ^ 64 - 1 ∧
    (∀ mg : Nat, geneticLoopBound mg = (mg + (2 ^ 64 - 1)) % 2 ^ 64) ∧
    (∀ (C : Type) [Inhabited C] (fit : C → ℚ) (opts : GAOptions) (env : GAEnv C),
      opts.populatorSet = true → opts.population_size % 2 = 0 →
      opts.max_generations = 0 →
      runGA fit opts env =
        Except.ok (gaLoop fit opts env (2 ^ 64 - 1) 0
          ⟨gaInitPop opts env,
           (gaInitPop opts env).getD (maxIndexBy fit (gaInitPop opts env)) default,
           0⟩)) := by
  have hb : geneticLoopBound 0 = 2 ^ 64 - 1 := by
    show (0 + (2 ^ 64 - 1)) % 2 ^ 64 = 2 ^ 64 - 1
    rw [Nat.zero_add]
    exact Nat.mod_eq_of_lt (Nat.sub_lt (Nat.pos_pow_of_pos 64 (by decide)) Nat.one_pos)
  refine ⟨hb, fun mg => rfl, ?_⟩
  intro C instC fit opts env h1 h2 h3
  simp [runGA, h1, h2, h3, hb]

/-- Witness for C9: a validated configuration with `max_generations = 0`
enters the breeding loop with a `2^64 - 1` iteration budget. -/
theorem max_generations_zero_underflow_witness :
    runGA qfit qOpts9 qGAEnv =
      Except.ok (gaLoop qfit qOpts9 qGAEnv (2 ^ 64 - 1) 0
        ⟨gaInitPop qOpts9 qGAEnv,
         (gaInitPop qOpts9 qGAEnv).getD (maxIndexBy qfit (gaInitPop qOpts9 qGAEnv)) default,
         0⟩) :=
  max_generations_zero_underflow.2.2 ℚ qfit qOpts9 qGAEnv rfl rfl rfl

/-- Claim C10: in `GenSudokuBoardGAPopulator::crossover`, for every row
`row` the per-row coin flip assigns that entire row of one parent to the
first child and the same row of the other parent to the second child,
complementarily: draw `0` gives child 0 parent 0's row and child 1
parent 1's row, any other draw swaps the parents — cell by cell across
all positions `row * NN + j`, `j < NN`, of the row-major contents. -/
theorem crossover_rows_wholesale :
    ∀ (NN : Nat) (draws : Nat → Nat) (p0 p1 : Nat → Nat) (row : Nat),
      (draws row = 0 →
        ∀ j, j < NN →
          (gsCrossover NN draws p0 p1).1 (row * NN + j) = p0 (row * NN + j) ∧
          (gsCrossover NN draws p0 p1).2 (row * NN + j) = p1 (row * NN + j)) ∧
      (draws row ≠ 0 →
        ∀ j, j < NN →
          (gsCrossover NN draws p0 p1).1 (row * NN + j) = p1 (row * NN + j) ∧
          (gsCrossover NN draws p0 p1).2 (row * NN + j) = p0 (row * NN + j)) := by
  intro NN draws p0 p1 row
  have hdiv : ∀ j, j < NN → (row * NN + j) / NN = row := by
    intro j hj
    have hNN : 0 < NN := lt_of_le_of_lt (Nat.zero_le j) hj
    rw [Nat.mul_comm row NN, Nat.mul_add_div hNN, Nat.div_eq_of_lt hj, Nat.add_zero]
  constructor
  · intro h0 j hj
    constructor
    · show (if draws ((row * NN + j) / NN) = 0 then p0 (row * NN + j)
        else p1 (row * NN + j)) = p0 (row * NN + j)
      rw [hdiv j hj, h0]
      simp
    · show (if draws ((row * NN + j) / NN) = 0 then p1 (row * NN + j)
        else p0 (row * NN + j)) = p1 (row * NN + j)
      rw [hdiv j hj, h0]
      simp
  · intro h0 j hj
    constructor
    · show (if draws ((row * NN + j) / NN) = 0 then p0 (row * NN + j)
        else p1 (row * NN + j)) = p1 (row * NN + j)
      rw [hdiv j hj, if_neg h0]
    · show (if draws ((row * NN + j) / NN) = 0 then p1 (row * NN + j)
        else p0 (row * NN + j)) = p0 (row * NN + j)
      rw [hdiv j hj, if_neg h0]

/-- Witness for C10 at `NN = 2`: row `1` draws `1`, so on both its cells
(positions `2` and `3`) child 0 copies parent 1 and child 1 copies
parent 0. -/
theorem crossover_rows_wholesale_witness :
    ((fun r => r) 1 ≠ 0) ∧
    ((gsCrossover 2 (fun r => r) (fun pos => pos) (fun pos => 100 + pos)).1 (1 * 2 + 0) =
      (fun pos => 100 + pos) (1 * 2 + 0) ∧
     (gsCrossover 2 (fun r => r) (fun pos => pos) (fun pos => 100 + pos)).2 (1 * 2 + 0) =
      (fun pos => pos) (1 * 2 + 0)) ∧
    ((gsCrossover 2 (fun r => r) (fun pos => pos) (fun pos => 100 + pos)).1 (1 * 2 + 1) =
      (fun pos => 100 + pos) (1 * 2 + 1) ∧
     (gsCrossover 2 (fun r => r) (fun pos => pos) (fun pos => 100 + pos)).2 (1 * 2 + 1) =
      (fun pos => pos) (1 * 2 + 1)) :=
  ⟨by decide,
   (crossover_rows_wholesale 2 (fun r => r) (fun pos => pos)
     (fun pos => 100 + pos) 1).2 (by decide) 0 (by decide),
   (crossover_rows_wholesale 2 (fun r => r) (fun pos => pos)
     (fun pos => 100 + pos) 1).2 (by decide) 1 (by decide)⟩

theorem gaInitPop_length {C : Type} [Inhabited C] (opts : GAOptions) (env : GAEnv C) :
    (gaInitPop opts env).length = opts.population_size := by
  simp [gaInitPop]

theorem gaInitPop_getD {C : Type} [Inhabited C] (opts : GAOptions) (env : GAEnv C)
    (k : Nat) (hk : k < opts.population_size) :
    (gaInitPop opts env).getD k default = env.initGen k := by
  have hk' : k < (gaInitPop opts env).length := by
    rw [gaInitPop_length]
    exact hk
  rw [List.getD_eq_getElem _ _ hk']
  simp [gaInitPop]

theorem gaStep_inl_of_best {C : Type} [Inhabited C] (fit : C → ℚ) (opts : GAOptions)
    (env : GAEnv C) (g : Nat) (st : GAState C)
    (h : opts.fitness_success_threshold ≤ fit st.best) :
    ∃ b, gaStep fit opts env g st = Sum.inl b ∧
      opts.fitness_success_threshold ≤ fit b ∧ fit st.best ≤ fit b := by
  set N := buildGeneration opts env g st.prevGen with hN
  set F := N.getD (maxIndexBy fit N) default with hF
  set B := if fit st.best < fit F then F else st.best with hB
  set D := if fit st.best < fit F then 0 else st.deadRounds + 1 with hD
  have hga : gaStep fit opts env g st =
      if opts.fitness_success_threshold ≤ fit B then Sum.inl B
      else
        Sum.inr ⟨env.shuffleAt g (killPass fit opts env g D (killThreshold opts (fit B)) 0 N),
          B, if opts.permissible_dead_rounds ≤ D then 0 else D⟩ := rfl
  have hmB : fit st.best ≤ fit B := by
    rw [hB]
    split_ifs with hh
    · exact le_of_lt hh
    · exact le_refl _
  have hth : opts.fitness_success_threshold ≤ fit B := le_trans h hmB
  exact ⟨B, by rw [hga, if_pos hth], hth, hmB⟩

theorem runGA_valid_eq {C : Type} [Inhabited C] (fit : C → ℚ) (opts : GAOptions)
    (env : GAEnv C) (h1 : opts.populatorSet = true)
    (h2 : opts.population_size % 2 = 0) :
    runGA fit opts env =
      Except.ok (gaLoop fit opts env (geneticLoopBound opts.max_generations) 0
        ⟨gaInitPop opts env,
         (gaInitPop opts env).getD (maxIndexBy fit (gaInitPop opts env)) default,
         0⟩) := by
  simp [runGA, h1, h2]

/-- Claim C7: for every valid configuration in which every candidate
returned by `generate()` already has fitness at or above the success
threshold, the genetic engine (budget permitting at least one breeding
generation, population non-empty) terminates successfully at generation
`0`, and the hill-climbing engine (at least one round and one iteration,
with the default acceptance policy) terminates successfully at round `0`,
iteration `0`, each returning a candidate whose fitness meets the
threshold. -/
theorem immediate_success_at_generation_zero :
    (∀ (C : Type) [Inhabited C] (fit : C → ℚ) (opts : GAOptions) (env : GAEnv C),
      opts.populatorSet = true → opts.population_size % 2 = 0 →
      0 < opts.population_size → 1 ≤ geneticLoopBound opts.max_generations →
      (∀ k, opts.fitness_success_threshold ≤ fit (env.initGen k)) →
      ∃ b, runGA fit opts env = Except.ok (GAOutcome.solved b 0) ∧
        opts.fitness_success_threshold ≤ fit b) ∧
    (∀ (C S : Type) (fit : C → ℚ) (opts : HCOptions) (env : HCEnv C S),
      opts.populatorSet = true → 1 ≤ opts.max_rounds →
      1 ≤ opts.max_iterations_per_round →
      env.accept = defaultAccept fit →
      (∀ r, opts.fitness_success_threshold ≤ fit (env.genAt r)) →
      ∃ c, runHC fit opts env = Except.ok (HCOutcome.solved c 0 0) ∧
        opts.fitness_success_threshold ≤ fit c) := by
  constructor
  · intro C instC fit opts env h1 h2 h3 h4 h5
    set pop := gaInitPop opts env with hpop
    set best0 := pop.getD (maxIndexBy fit pop) default with hbest0
    have hlen : pop.length = opts.population_size := gaInitPop_length opts env
    have hlenpos : 0 < pop.length := by rw [hlen]; exact h3
    have hmaxlt : maxIndexBy fit pop < pop.length := by
      rw [maxIndexBy_eq_scanIdx]
      exact (scanIdx_invariant fit pop pop.length hlenpos).1
    have hbfit : opts.fitness_success_threshold ≤ fit best0 := by
      rw [hbest0, hpop, gaInitPop_getD opts env _ (by rw [← hlen, ← hpop]; exact hmaxlt)]
      exact h5 _
    obtain ⟨f, hf⟩ : ∃ f, geneticLoopBound opts.max_generations = f + 1 :=
      Nat.exists_eq_succ_of_ne_zero (Nat.pos_iff_ne_zero.mp h4)
    obtain ⟨b, hstep, hθ, -⟩ :=
      gaStep_inl_of_best fit opts env 0 ⟨pop, best0, 0⟩ hbfit
    refine ⟨b, ?_, hθ⟩
    rw [runGA_valid_eq fit opts env h1 h2, hf]
    have : gaLoop fit opts env (f + 1) 0 ⟨pop, best0, 0⟩ = GAOutcome.solved b 0 := by
      simp only [gaLoop, hstep]
    rw [← hpop, ← hbest0, this]
  · intro C S fit opts env h1 h2 h3 hacc h5
    obtain ⟨fr, hfr⟩ : ∃ fr, opts.max_rounds = fr + 1 :=
      ⟨opts.max_rounds - 1, (Nat.succ_pred_eq_of_pos h2).symm⟩
    obtain ⟨fi, hfi⟩ : ∃ fi, opts.max_iterations_per_round = fi + 1 :=
      ⟨opts.max_iterations_per_round - 1, (Nat.succ_pred_eq_of_pos h3).symm⟩
    set cur := env.genAt 0 with hcur
    set s := env.initState 0 with hs
    set next := env.neighbourAt 0 0 cur with hnext
    have hacc1 : env.accept next cur s = (decide (fit cur < fit next), s) := by
      rw [hacc]
      rfl
    have hθ' : opts.fitness_success_threshold ≤
        fit (if fit cur < fit next then next else cur) := by
      split_ifs with hlt
      · exact le_trans (h5 0) (le_of_lt hlt)
      · exact h5 0
    have hiter : hcIterLoop fit opts env 0 (fi + 1) 0 s cur none =
        Sum.inl (if fit cur < fit next then next else cur, 0) := by
      simp only [hcIterLoop, hacc1, decide_eq_true_eq]
      rw [if_pos hθ']
    refine ⟨if fit cur < fit next then next else cur, ?_, hθ'⟩
    have hround : hcRoundLoop fit opts env (fr + 1) 0 none =
        HCOutcome.solved (if fit cur < fit next then next else cur) 0 0 := by
      simp only [hcRoundLoop, hfi, ← hs, ← hcur, hiter]
    simp only [runHC, h1, Bool.not_true, Bool.false_eq_true, if_false, hfr, hround]

/-- Witness for C7: under `qGAEnv7` / `qHCEnv7` every `generate()` has
fitness `7`, which meets the success threshold `5`; both engines solve at
generation/round `0`. -/
theorem immediate_success_at_generation_zero_witness :
    (∃ b, runGA qfit qOpts7 qGAEnv7 = Except.ok (GAOutcome.solved b 0) ∧
      qOpts7.fitness_success_threshold ≤ qfit b) ∧
    (∃ c, runHC qfit ⟨true, 1, 1, 5⟩ qHCEnv7 = Except.ok (HCOutcome.solved c 0 0) ∧
      HCOptions.fitness_success_threshold ⟨true, 1, 1, 5⟩ ≤ qfit c) :=
  ⟨immediate_success_at_generation_zero.1 ℚ qfit qOpts7 qGAEnv7 rfl rfl
    (by decide) (by simp [geneticLoopBound, qOpts7, qOptsBase]) (fun k => by show (5 : ℚ) ≤ 7; decide),
   immediate_success_at_generation_zero.2 ℚ Unit qfit ⟨true, 1, 1, 5⟩ qHCEnv7 rfl
    (by decide) (by decide) rfl (fun r => by show (5 : ℚ) ≤ 7; decide)⟩

/-- Claim C8 counterexample: a hill-climbing run with `max_rounds = 1`
and `max_iterations_per_round = 0` exhausts its budget without any
candidate reaching the threshold `100`, yet `run` returns the null
pointer (`best` was never assigned), i.e. the outcome is
`exhausted none` — a null result, contradicting the claim as stated. -/
theorem hc_zero_iteration_budget_returns_null :
    runHC qfit ⟨true, 1, 0, 100⟩ qHCEnv7 = Except.ok (HCOutcome.exhausted none) := rfl

theorem updateBest_isSome {C : Type} (fit : C → ℚ) (cur : C) (best : Option C) :
    (updateBest fit cur best).isSome = true := by
  cases best with
  | none => rfl
  | some b =>
    simp only [updateBest]
    split_ifs <;> rfl

theorem hcIterLoop_inr_isSome {C S : Type} (fit : C → ℚ) (opts : HCOptions)
    (env : HCEnv C S) (r : Nat) :
    ∀ (fuel k : Nat) (s : S) (cur : C) (best : Option C),
      (best.isSome = true ∨ 1 ≤ fuel) →
      ∀ b', hcIterLoop fit opts env r fuel k s cur best = Sum.inr b' →
        b'.isSome = true := by
  intro fuel
  induction fuel with
  | zero =>
    intro k s cur best hpre b' h
    simp only [hcIterLoop, Sum.inr.injEq] at h
    subst h
    rcases hpre with h | h
    · exact h
    · omega
  | succ n ih =>
    intro k s cur best hpre b' h
    by_cases hth : opts.fitness_success_threshold ≤
        fit (if (env.accept (env.neighbourAt r k cur) cur s).1 then
          env.neighbourAt r k cur else cur)
    · have hl : hcIterLoop fit opts env r (n + 1) k s cur best =
          Sum.inl (if (env.accept (env.neighbourAt r k cur) cur s).1 then
            env.neighbourAt r k cur else cur, k) := by
        simp only [hcIterLoop, if_pos hth]
      rw [hl] at h
      cases h
    · have hl : hcIterLoop fit opts env r (n + 1) k s cur best =
          hcIterLoop fit opts env r n (k + 1)
            (env.accept (env.neighbourAt r k cur) cur s).2
            (if (env.accept (env.neighbourAt r k cur) cur s).1 then
              env.neighbourAt r k cur else cur)
            (updateBest fit
              (if (env.accept (env.neighbourAt r k cur) cur s).1 then
                env.neighbourAt r k cur else cur) best) := by
        simp only [hcIterLoop, if_neg hth]
      rw [hl] at h
      exact ih (k + 1) _ _ _ (Or.inl (updateBest_isSome fit _ best)) b' h

theorem hcRoundLoop_ne_null {C S : Type} (fit : C → ℚ) (opts : HCOptions)
    (env : HCEnv C S) :
    ∀ (fuel r : Nat) (best : Option C), best.isSome = true →
      hcRoundLoop fit opts env fuel r best ≠ HCOutcome.exhausted none := by
  intro fuel
  induction fuel with
  | zero =>
    intro r best hbest
    simp only [hcRoundLoop]
    intro h
    injection h with h2
    rw [h2] at hbest
    cases hbest
  | succ n ih =>
    intro r best hbest
    rcases hl : hcIterLoop fit opts env r opts.max_iterations_per_round 0
        (env.initState r) (env.genAt r) best with p | b'
    · simp only [hcRoundLoop, hl]
      intro h
      cases h
    · simp only [hcRoundLoop, hl]
      exact ih (r + 1) b'
        (hcIterLoop_inr_isSome fit opts env r _ 0 _ _ best (Or.inl hbest) b' hl)

/-- Claim C8 (amended): exhausting the budget without reaching the
success threshold yields a normal result in both engines — the genetic
engine always returns its (always-initialized) best via `Except.ok`, and
the hill-climbing engine returns a non-null best — PROVIDED the
hill-climbing budget runs at least one round with at least one iteration;
with a zero round budget or a zero per-round iteration budget, the
hill-climbing engine returns the never-assigned `best`, which is the
null pointer (see the counterexample). -/
theorem budget_exhaustion_returns_best :
    (∀ (C : Type) [Inhabited C] (fit : C → ℚ) (opts : GAOptions) (env : GAEnv C),
      opts.populatorSet = true → opts.population_size % 2 = 0 →
      ∃ out, runGA fit opts env = Except.ok out) ∧
    (∀ (C S : Type) (fit : C → ℚ) (opts : HCOptions) (env : HCEnv C S),
      opts.populatorSet = true → 1 ≤ opts.max_rounds →
      1 ≤ opts.max_iterations_per_round →
      ∃ out, runHC fit opts env = Except.ok out ∧
        out ≠ HCOutcome.exhausted none) := by
  constructor
  · intro C instC fit opts env h1 h2
    exact ⟨_, runGA_valid_eq fit opts env h1 h2⟩
  · intro C S fit opts env h1 h2 h3
    refine ⟨hcRoundLoop fit opts env opts.max_rounds 0 none, ?_, ?_⟩
    · simp [runHC, h1]
    · obtain ⟨fr, hfr⟩ : ∃ fr, opts.max_rounds = fr + 1 :=
        Nat.exists_eq_succ_of_ne_zero (Nat.pos_iff_ne_zero.mp h2)
      rw [hfr]
      rcases hl : hcIterLoop fit opts env 0 opts.max_iterations_per_round 0
          (env.initState 0) (env.genAt 0) none with p | b'
      · simp only [hcRoundLoop, hl]
        intro h
        cases h
      · simp only [hcRoundLoop, hl]
        exact hcRoundLoop_ne_null fit opts env fr 1 b'
          (hcIterLoop_inr_isSome fit opts env 0 _ 0 _ _ none (Or.inr h3) b' hl)

/-- Witness for the amended C8: with a positive budget both engines
produce a normal `Except.ok` outcome, the hill-climbing one non-null. -/
theorem budget_exhaustion_returns_best_witness :
    (∃ out, runGA qfit qOptsBase qGAEnv = Except.ok out) ∧
    (∃ out, runHC qfit ⟨true, 1, 1, 100⟩ qHCEnv7 = Except.ok out ∧
      out ≠ HCOutcome.exhausted none) :=
  ⟨budget_exhaustion_returns_best.1 ℚ qfit qOptsBase qGAEnv rfl rfl,
   budget_exhaustion_returns_best.2 ℚ Unit qfit ⟨true, 1, 1, 100⟩ qHCEnv7 rfl
     (by decide) (by decide)⟩

end StochasticSudoku
